import Mathlib

/-!
# torch/csrc/jit/pickler.h

A shallow embedding of the declarations of `torch/csrc/jit/pickler.h`:
the `OpCode` and `PicklerClass` enumerations, the `Unpickler` object and
its bounds-checked primitive `Unpickler::read<T>`.

Conventions of the embedding.

* Pointers (`const uint8_t*`) are natural-number addresses into a flat,
  byte-addressed memory of `2 ^ 64` bytes; a pointer difference is an
  integer.  The constructor adds an arbitrary `size_t` to a pointer, and
  that sum is taken modulo `2 ^ 64`.  In `read` the sum
  `bytes_ + sizeof(T)` adds at most 8 to the cursor and is taken exactly:
  it reaches `2 ^ 64` only for a cursor in the last 8 bytes of the address
  space, where no input buffer lies.
* A C++ exception leaves the object it was thrown from as it was at the
  `throw`; a member function is therefore a function from the machine state
  to a result-or-error together with the machine state after the call.
* Integer objects have the representation of the targets the header is
  built for: 8-bit bytes, two's complement, least significant byte at the
  lowest address.
-/

namespace torch.jit

/-! ## Bytes and memory -/

/-- One `uint8_t`. -/
abbrev Byte := Fin 256

/-- Flat byte-addressed memory: the byte stored at every address. -/
abbrev Memory := Nat → Byte

/-! ## `enum class OpCode : char` -/

/-- The named members of `enum class OpCode : char`, in declaration order. -/
inductive OpCode where
  | MARK | STOP | POP | POP_MARK | DUP | FLOAT | INT | BININT | BININT1
  | LONG | BININT2 | NONE | PERSID | BINPERSID | REDUCE | STRING
  | BINSTRING | SHORT_BINSTRING | UNICODE | BINUNICODE | APPEND | BUILD
  | GLOBAL | DICT | EMPTY_DICT | APPENDS | GET | BINGET | INST
  | LONG_BINGET | LIST | EMPTY_LIST | OBJ | PUT | BINPUT | LONG_BINPUT
  | SETITEM | TUPLE | EMPTY_TUPLE | SETITEMS | BINFLOAT
  -- Protocol 2
  | PROTO | NEWOBJ | EXT1 | EXT2 | EXT4 | TUPLE1 | TUPLE2 | TUPLE3
  | NEWTRUE | NEWFALSE | LONG1 | LONG4
  -- Protocol 3 (Python 3.x)
  | BINBYTES | SHORT_BINBYTES
  -- Protocol 4
  | SHORT_BINUNICODE | BINUNICODE8 | BINBYTES8 | EMPTY_SET | ADDITEMS
  | FROZENSET | NEWOBJ_EX | STACK_GLOBAL | MEMOIZE | FRAME
  deriving DecidableEq, Repr

namespace OpCode

/-- The character literal each member is initialised with. -/
def toChar : OpCode → Char
  | MARK => '('
  | STOP => '.'
  | POP => '0'
  | POP_MARK => '1'
  | DUP => '2'
  | FLOAT => 'F'
  | INT => 'I'
  | BININT => 'J'
  | BININT1 => 'K'
  | LONG => 'L'
  | BININT2 => 'M'
  | NONE => 'N'
  | PERSID => 'P'
  | BINPERSID => 'Q'
  | REDUCE => 'R'
  | STRING => 'S'
  | BINSTRING => 'T'
  | SHORT_BINSTRING => 'U'
  | UNICODE => 'V'
  | BINUNICODE => 'X'
  | APPEND => 'a'
  | BUILD => 'b'
  | GLOBAL => 'c'
  | DICT => 'd'
  | EMPTY_DICT => '}'
  | APPENDS => 'e'
  | GET => 'g'
  | BINGET => 'h'
  | INST => 'i'
  | LONG_BINGET => 'j'
  | LIST => 'l'
  | EMPTY_LIST => ']'
  | OBJ => 'o'
  | PUT => 'p'
  | BINPUT => 'q'
  | LONG_BINPUT => 'r'
  | SETITEM => 's'
  | TUPLE => 't'
  | EMPTY_TUPLE => ')'
  | SETITEMS => 'u'
  | BINFLOAT => 'G'
  | PROTO => '\x80'
  | NEWOBJ => '\x81'
  | EXT1 => '\x82'
  | EXT2 => '\x83'
  | EXT4 => '\x84'
  | TUPLE1 => '\x85'
  | TUPLE2 => '\x86'
  | TUPLE3 => '\x87'
  | NEWTRUE => '\x88'
  | NEWFALSE => '\x89'
  | LONG1 => '\x8a'
  | LONG4 => '\x8b'
  | BINBYTES => 'B'
  | SHORT_BINBYTES => 'C'
  | SHORT_BINUNICODE => '\x8c'
  | BINUNICODE8 => '\x8d'
  | BINBYTES8 => '\x8e'
  | EMPTY_SET => '\x8f'
  | ADDITEMS => '\x90'
  | FROZENSET => '\x91'
  | NEWOBJ_EX => '\x92'
  | STACK_GLOBAL => '\x93'
  | MEMOIZE => '\x94'
  | FRAME => '\x95'

/-- The byte a member occupies in a stream: the object representation of
its `char` value. -/
def toByte (op : OpCode) : Byte := Fin.ofNat op.toChar.toNat

/-- The named members, in declaration order. -/
def all : List OpCode :=
  [MARK, STOP, POP, POP_MARK, DUP, FLOAT, INT, BININT, BININT1, LONG,
   BININT2, NONE, PERSID, BINPERSID, REDUCE, STRING, BINSTRING,
   SHORT_BINSTRING, UNICODE, BINUNICODE, APPEND, BUILD, GLOBAL, DICT,
   EMPTY_DICT, APPENDS, GET, BINGET, INST, LONG_BINGET, LIST, EMPTY_LIST,
   OBJ, PUT, BINPUT, LONG_BINPUT, SETITEM, TUPLE, EMPTY_TUPLE, SETITEMS,
   BINFLOAT, PROTO, NEWOBJ, EXT1, EXT2, EXT4, TUPLE1, TUPLE2, TUPLE3,
   NEWTRUE, NEWFALSE, LONG1, LONG4, BINBYTES, SHORT_BINBYTES,
   SHORT_BINUNICODE, BINUNICODE8, BINBYTES8, EMPTY_SET, ADDITEMS,
   FROZENSET, NEWOBJ_EX, STACK_GLOBAL, MEMOIZE, FRAME]

/-- The named member whose value is the byte `b`, if there is one: the
member a `case OpCode::X:` label would match for `static_cast<OpCode>(b)`. -/
def ofByte? (b : Byte) : Option OpCode :=
  all.find? (fun op => op.toByte == b)

end OpCode

/-! ## `enum PicklerClass : uint8_t` -/

/-- The enumerators of `enum PicklerClass : uint8_t`. -/
inductive PicklerClass where
  /-- A reference to the tensor table. -/
  | TENSOR
  /-- The type `List[int]`. -/
  | INTLIST
  /-- A tensor that is stored entirely in the pickle file. -/
  | LITERAL_TENSOR
  deriving DecidableEq, Repr, Fintype

namespace PicklerClass

/-- The `uint8_t` value each enumerator is declared with. -/
def toByte : PicklerClass → Byte
  | TENSOR => 0
  | INTLIST => 1
  | LITERAL_TENSOR => 2

/-- The enumerators, in declaration order. -/
def all : List PicklerClass := [TENSOR, INTLIST, LITERAL_TENSOR]

/-- The enumerator whose value is the byte `b`, if there is one. -/
def ofByte? (b : Byte) : Option PicklerClass :=
  all.find? (fun c => c.toByte == b)

end PicklerClass

/-! ## The types `read<T>` is instantiated with -/

/-- The fixed-width integer types a payload is read as. -/
inductive CType where
  | uint8_t | int8_t | uint16_t | int16_t
  | uint32_t | int32_t | uint64_t | int64_t
  deriving DecidableEq, Repr

namespace CType

/-- The value of `sizeof(T)`. -/
def sizeof : CType → Nat
  | uint8_t | int8_t => 1
  | uint16_t | int16_t => 2
  | uint32_t | int32_t => 4
  | uint64_t | int64_t => 8

/-- Whether `T` is a signed type. -/
def isSigned : CType → Bool
  | int8_t | int16_t | int32_t | int64_t => true
  | uint8_t | uint16_t | uint32_t | uint64_t => false

end CType

/-- The unsigned number a sequence of bytes stands for, least significant
byte first. -/
def leValue : List Byte → Nat
  | [] => 0
  | b :: bs => b.val + 256 * leValue bs

/-- The value of an object of type `T` whose object representation is
`bs`: the unsigned number for an unsigned type, its two's complement
reading for a signed one. -/
def CType.ofBytes (T : CType) (bs : List Byte) : Int :=
  if T.isSigned && decide (2 ^ (8 * T.sizeof - 1) ≤ leValue bs) then
    (leValue bs : Int) - 2 ^ (8 * T.sizeof)
  else
    (leValue bs : Int)

/-- The bytes `std::memcpy(&item, src, n)` copies: those stored at
addresses `src`, `src + 1`, ..., `src + n - 1`. -/
def memcpy (mem : Memory) (src n : Nat) : List Byte :=
  (List.range n).map (fun i => mem (src + i))

/-! ## Errors -/

/-- The exception `AT_CHECK` throws (`c10::Error`), reduced to what the
call site supplies: the message.  What `c10::Error` adds of its own (the
source location of the check, a backtrace) is left out. -/
structure Error where
  msg : String
  deriving DecidableEq, Repr

/-- Modelled from the spec: the macro `AT_CHECK(cond, msg)` of
`c10/util/Exception.h`, which is not part of the header.  It does nothing
when `cond` holds and throws an error carrying `msg` otherwise. -/
def AT_CHECK (cond : Bool) (msg : String) : Except Error Unit :=
  if cond then .ok () else .error { msg := msg }

/-- The error `Unpickler::read` raises when the buffer is too short; the
specification calls this kind of error `Truncated`. -/
def Truncated : Error :=
  { msg := "Unpickler overran buffer while reading a value" }

/-! ## `class Unpickler` -/

/-- The data members of `class Unpickler`.  `IValue` and `Tensor` are the
external types `c10::IValue` and `at::Tensor`. -/
structure Unpickler (IValue Tensor : Type) where
  stack_ : List IValue
  memo_ : List IValue
  marks_ : List Nat
  /-- The cursor: address of the next unread byte. -/
  bytes_ : Nat
  /-- One past the last byte of the input. -/
  end_ptr_ : Nat
  /-- The tensor table the decoder was given, `none` for a null pointer. -/
  tensor_table_ : Option (List Tensor)
  /-- The `char` stored in the member `last_opcode_`. -/
  last_opcode_ : Byte

/-- The number of addresses: pointers and `size_t` are 64 bits wide. -/
def addressSpace : Nat := 2 ^ 64

/-- The constructor `Unpickler::Unpickler(data, size, tensor_table)`.  The three
vectors are default-constructed, hence empty.  `end_ptr_(bytes_ + size)`
adds the `size_t` argument to the pointer in 64-bit arithmetic, so the sum
wraps around at `2 ^ 64`.  `last_opcode_` has no initialiser: it holds
whatever byte `indeterminate` the storage held. -/
def Unpickler.construct {IValue Tensor : Type} (data size : Nat)
    (tensor_table : Option (List Tensor)) (indeterminate : Byte) :
    Unpickler IValue Tensor :=
  { stack_ := []
    memo_ := []
    marks_ := []
    bytes_ := data
    end_ptr_ := (data + size) % addressSpace
    tensor_table_ := tensor_table
    last_opcode_ := indeterminate }

/-- What a member function of the decoder runs on: the memory that holds
the input, and the decoder object. -/
structure Machine (IValue Tensor : Type) where
  mem : Memory
  self : Unpickler IValue Tensor

/-- The member function template `T Unpickler::read<T>()`: the bounds
check, the `memcpy` into `item`, the advance of `bytes_`, the return of
`item`.  When the check throws, nothing after it runs. -/
def Unpickler.read {IValue Tensor : Type} (T : CType)
    (m : Machine IValue Tensor) : Except Error Int × Machine IValue Tensor :=
  match AT_CHECK (decide (m.self.bytes_ + T.sizeof ≤ m.self.end_ptr_))
      "Unpickler overran buffer while reading a value" with
  | .error e => (.error e, m)
  | .ok () =>
    let item := T.ofBytes (memcpy m.mem m.self.bytes_ T.sizeof)
    (.ok item, { m with self := { m.self with bytes_ := m.self.bytes_ + T.sizeof } })

/-- A finite sequence of calls of `read`, one per listed type, each run
on the state the previous one left, with the results in order. -/
def Unpickler.reads {IValue Tensor : Type} :
    List CType → Machine IValue Tensor →
      List (Except Error Int) × Machine IValue Tensor
  | [], m => ([], m)
  | T :: Ts, m =>
    let r := Unpickler.read T m
    let rs := Unpickler.reads Ts r.2
    (r.1 :: rs.1, rs.2)

/-- The invariant `cursor ≤ end` of the decoder. -/
def Unpickler.Inv {IValue Tensor : Type} (u : Unpickler IValue Tensor) : Prop :=
  u.bytes_ ≤ u.end_ptr_

instance {IValue Tensor : Type} (u : Unpickler IValue Tensor) :
    Decidable u.Inv := by
  unfold Unpickler.Inv; infer_instance

/-! ## Instruction dispatch -/

/-- Modelled from the spec: the decoder's structured error for a byte
that names no instruction, "with the opcode byte and its offset".  The
dispatch that raises it, `Unpickler::readInstruction`, is only declared in
the header. -/
structure UnknownOpcode where
  byte : Byte
  offset : Nat
  deriving DecidableEq, Repr

/-- Modelled from the spec: the dispatch of `Unpickler::readInstruction`,
which the header declares and does not define, on the byte `b` found at
`offset` where an instruction is expected.  The byte is matched against
the members of `OpCode`; a member that has a handler (`handled`) is the
instruction to run, and "any opcode not listed is `UnknownOpcode` with the
opcode byte and its offset". -/
def dispatch (handled : OpCode → Bool) (b : Byte) (offset : Nat) :
    Except UnknownOpcode OpCode :=
  match OpCode.ofByte? b with
  | some op => if handled op then .ok op else .error { byte := b, offset := offset }
  | none => .error { byte := b, offset := offset }

/-- The byte `b_i` of the input, counted from the cursor, as an integer. -/
def Machine.peek {IValue Tensor : Type} (m : Machine IValue Tensor) (i : Nat) : Int :=
  ((m.mem (m.self.bytes_ + i)).val : Int)

/-! ## Example inputs -/

/-- Memory holding the bytes `bs` from address `base` on, zero elsewhere. -/
def memOf (base : Nat) (bs : List Byte) : Memory :=
  fun a => if base ≤ a then bs.getD (a - base) 0 else 0

/-- A decoder freshly constructed over the bytes `bs` placed at address
`base`, with no tensor table. -/
def machineOf (base : Nat) (bs : List Byte) : Machine Unit Unit :=
  { mem := memOf base bs
    self := Unpickler.construct base bs.length none 0 }

section Read

variable {IValue Tensor : Type}

theorem Unpickler.read_of_le (T : CType) (m : Machine IValue Tensor)
    (h : m.self.bytes_ + T.sizeof ≤ m.self.end_ptr_) :
    Unpickler.read T m =
      (.ok (T.ofBytes (memcpy m.mem m.self.bytes_ T.sizeof)),
       { m with self := { m.self with bytes_ := m.self.bytes_ + T.sizeof } }) := by
  simp [Unpickler.read, AT_CHECK, h]

theorem Unpickler.read_of_not_le (T : CType) (m : Machine IValue Tensor)
    (h : ¬ m.self.bytes_ + T.sizeof ≤ m.self.end_ptr_) :
    Unpickler.read T m = (.error Truncated, m) := by
  simp [Unpickler.read, AT_CHECK, h, Truncated]

theorem Unpickler.read_cases (T : CType) (m : Machine IValue Tensor) :
    (m.self.bytes_ + T.sizeof ≤ m.self.end_ptr_ ∧
      Unpickler.read T m =
        (.ok (T.ofBytes (memcpy m.mem m.self.bytes_ T.sizeof)),
         { m with self := { m.self with bytes_ := m.self.bytes_ + T.sizeof } })) ∨
    (¬ m.self.bytes_ + T.sizeof ≤ m.self.end_ptr_ ∧
      Unpickler.read T m = (.error Truncated, m)) := by
  by_cases h : m.self.bytes_ + T.sizeof ≤ m.self.end_ptr_
  · exact Or.inl ⟨h, Unpickler.read_of_le T m h⟩
  · exact Or.inr ⟨h, Unpickler.read_of_not_le T m h⟩

theorem Unpickler.read_ok_value (T : CType) (m : Machine IValue Tensor) (v : Int)
    (h : (Unpickler.read T m).1 = .ok v) :
    m.self.bytes_ + T.sizeof ≤ m.self.end_ptr_ ∧
      v = T.ofBytes (memcpy m.mem m.self.bytes_ T.sizeof) := by
  rcases Unpickler.read_cases T m with ⟨hle, heq⟩ | ⟨_, heq⟩
  · rw [heq] at h
    exact ⟨hle, by injection h with h; exact h.symm⟩
  · rw [heq] at h; cases h

theorem Unpickler.reads_inv (Ts : List CType) (m : Machine IValue Tensor) :
    (m.self.Inv → (Unpickler.reads Ts m).2.self.Inv) ∧
      (Unpickler.reads Ts m).2.self.end_ptr_ = m.self.end_ptr_ := by
  induction Ts generalizing m with
  | nil => exact ⟨fun h => h, rfl⟩
  | cons T Ts ih =>
    have hstep : (m.self.Inv → (Unpickler.read T m).2.self.Inv) ∧
        (Unpickler.read T m).2.self.end_ptr_ = m.self.end_ptr_ := by
      rcases Unpickler.read_cases T m with ⟨hle, heq⟩ | ⟨_, heq⟩
      · rw [heq]; exact ⟨fun _ => hle, rfl⟩
      · rw [heq]; exact ⟨fun h => h, rfl⟩
    have ih' := ih (Unpickler.read T m).2
    simp only [Unpickler.reads]
    exact ⟨fun h => ih'.1 (hstep.1 h), ih'.2.trans hstep.2⟩

theorem Unpickler.construct_end_ptr (data size : Nat) (tt : Option (List Tensor))
    (lo : Byte) (h : data + size < addressSpace) :
    (Unpickler.construct data size tt lo : Unpickler IValue Tensor).end_ptr_ =
      data + size := by
  show (data + size) % addressSpace = data + size
  exact Nat.mod_eq_of_lt h

theorem memcpy_one (mem : Memory) (p : Nat) : memcpy mem p 1 = [mem p] := rfl

theorem memcpy_two (mem : Memory) (p : Nat) :
    memcpy mem p 2 = [mem p, mem (p + 1)] := rfl

theorem memcpy_four (mem : Memory) (p : Nat) :
    memcpy mem p 4 = [mem p, mem (p + 1), mem (p + 2), mem (p + 3)] := rfl

theorem memcpy_eight (mem : Memory) (p : Nat) :
    memcpy mem p 8 = [mem p, mem (p + 1), mem (p + 2), mem (p + 3),
      mem (p + 4), mem (p + 5), mem (p + 6), mem (p + 7)] := rfl

theorem OpCode.ofByte?_toByte (op : OpCode) : OpCode.ofByte? op.toByte = some op := by
  cases op <;> rfl

theorem OpCode.toByte_of_ofByte? (b : Byte) (op : OpCode)
    (h : OpCode.ofByte? b = some op) : op.toByte = b := by
  have hc := List.find?_some h
  simpa using hc

end Read

/-! ## Bounds checking -/

section Claims

variable {IValue Tensor : Type}

/-- C2, as stated, fails.  The constructor computes the end pointer as
`bytes_ + size` in 64-bit arithmetic and checks nothing: for the input at
address `0x100000` with `size = 2 ^ 64 - 1`, both of which are values of
their types, the sum wraps to `0xFFFFF`, and the fresh decoder has its
cursor above its end. -/
theorem Unpickler.fresh_cursor_above_end :
    (0x100000 : Nat) < addressSpace ∧ (2 ^ 64 - 1 : Nat) < addressSpace ∧
    (Unpickler.construct 0x100000 (2 ^ 64 - 1) none 0 : Unpickler Unit Unit).bytes_
      = 0x100000 ∧
    (Unpickler.construct 0x100000 (2 ^ 64 - 1) none 0 : Unpickler Unit Unit).end_ptr_
      = 0xFFFFF ∧
    ¬ (Unpickler.construct 0x100000 (2 ^ 64 - 1) none 0 : Unpickler Unit Unit).Inv := by
  refine ⟨by decide, by decide, rfl, by decide, ?_⟩
  show ¬ (0x100000 : Nat) ≤ (0x100000 + (2 ^ 64 - 1)) % addressSpace
  decide

/-- C2, amended.  `cursor ≤ end` is an invariant of the decoder.  It holds
for every freshly constructed `Unpickler(data, size, tensor_table)` whose
input lies in the address space (`data + size < 2 ^ 64`), whose cursor is
then at offset 0 and whose end is at offset `size` of the input; every
call of `read<T>` preserves it, whether the call succeeds or fails, and
leaves the end pointer as it was; hence both hold after every finite
sequence of reads, in particular of reads on such a fresh decoder. -/
theorem Unpickler.cursor_le_end_invariant :
    (∀ (data size : Nat) (tt : Option (List Tensor)) (lo : Byte),
      data + size < addressSpace →
      (Unpickler.construct data size tt lo : Unpickler IValue Tensor).bytes_ = data + 0 ∧
      (Unpickler.construct data size tt lo : Unpickler IValue Tensor).end_ptr_ = data + size ∧
      (Unpickler.construct data size tt lo : Unpickler IValue Tensor).Inv) ∧
    (∀ (T : CType) (m : Machine IValue Tensor),
      m.self.Inv → (Unpickler.read T m).2.self.Inv) ∧
    (∀ (T : CType) (m : Machine IValue Tensor),
      (Unpickler.read T m).2.self.end_ptr_ = m.self.end_ptr_) ∧
    (∀ (Ts : List CType) (m : Machine IValue Tensor),
      m.self.Inv → (Unpickler.reads Ts m).2.self.Inv) ∧
    (∀ (Ts : List CType) (m : Machine IValue Tensor),
      (Unpickler.reads Ts m).2.self.end_ptr_ = m.self.end_ptr_) ∧
    (∀ (data size : Nat) (tt : Option (List Tensor)) (lo : Byte) (mem : Memory)
        (Ts : List CType),
      data + size < addressSpace →
      (Unpickler.reads Ts
        ({ mem := mem, self := Unpickler.construct data size tt lo } :
          Machine IValue Tensor)).2.self.Inv ∧
      (Unpickler.reads Ts
        ({ mem := mem, self := Unpickler.construct data size tt lo } :
          Machine IValue Tensor)).2.self.end_ptr_ = data + size) := by
  have fresh : ∀ (data size : Nat) (tt : Option (List Tensor)) (lo : Byte),
      data + size < addressSpace →
      (Unpickler.construct data size tt lo : Unpickler IValue Tensor).Inv := by
    intro data size tt lo h
    show data ≤ (Unpickler.construct data size tt lo : Unpickler IValue Tensor).end_ptr_
    rw [Unpickler.construct_end_ptr data size tt lo h]
    exact Nat.le_add_right data size
  refine ⟨?_, ?_, ?_, ?_, ?_, ?_⟩
  · intro data size tt lo h
    exact ⟨rfl, Unpickler.construct_end_ptr data size tt lo h, fresh data size tt lo h⟩
  · intro T m h
    have := (Unpickler.reads_inv [T] m).1 h
    simpa [Unpickler.reads] using this
  · intro T m
    have := (Unpickler.reads_inv [T] m).2
    simpa [Unpickler.reads] using this
  · intro Ts m h
    exact (Unpickler.reads_inv Ts m).1 h
  · intro Ts m
    exact (Unpickler.reads_inv Ts m).2
  · intro data size tt lo mem Ts h
    refine ⟨(Unpickler.reads_inv Ts _).1 (fresh data size tt lo h), ?_⟩
    rw [(Unpickler.reads_inv Ts _).2]
    exact Unpickler.construct_end_ptr data size tt lo h

/-- Witness of C2, amended: a decoder constructed over three bytes at
address 16 lies in the address space and satisfies the invariant, also
after a one-byte, a four-byte (failing) and a two-byte read. -/
theorem Unpickler.cursor_le_end_invariant_witness :
    16 + 3 < addressSpace ∧
    (Unpickler.construct 16 3 none 0 : Unpickler Unit Unit).Inv ∧
    (machineOf 16 [0x4d, 0xff, 0xff]).self.Inv ∧
    (Unpickler.reads [CType.uint8_t, CType.uint32_t, CType.uint16_t]
      (machineOf 16 [0x4d, 0xff, 0xff])).2.self.Inv :=
  ⟨by decide,
   ((@Unpickler.cursor_le_end_invariant Unit Unit).1 16 3 none 0 (by decide)).2.2,
   by decide,
   (@Unpickler.cursor_le_end_invariant Unit Unit).2.2.2.1
     [CType.uint8_t, CType.uint32_t, CType.uint16_t]
     (machineOf 16 [0x4d, 0xff, 0xff]) (by decide)⟩

/-! ## Values -/

/-- C3. For every state in which `read<T>` succeeds, the value returned is
the integer formed from the `sizeof(T)` bytes `b0, b1, ...` at the cursor,
least significant first.  For an unsigned `T` it is the sum of
`b_i * 256 ^ i`; `read<uint8_t>` returns `b0`; `read<uint16_t>` returns
`b0 + 256 * b1`, which lies in `0..65535`; `read<uint32_t>` returns
`b0 + 2^8 * b1 + 2^16 * b2 + 2^24 * b3`; `read<int32_t>` returns the same
32-bit pattern read as two's complement, which lies in `-2^31..2^31-1`.
Bytes `ff ff ff ff` read as `int32_t` give `-1`, bytes `00 00 00 80` give
`-2^31`, and bytes `ff ff` read as `uint16_t` give `65535`. -/
theorem Unpickler.read_value_little_endian (T : CType) (m : Machine IValue Tensor)
    (v : Int) (h : (Unpickler.read T m).1 = .ok v) :
    (T.isSigned = false → v = ∑ i in Finset.range T.sizeof, m.peek i * 256 ^ i) ∧
    (T = CType.uint8_t → v = m.peek 0) ∧
    (T = CType.uint16_t →
      v = m.peek 0 + 256 * m.peek 1 ∧ 0 ≤ v ∧ v ≤ 65535 ∧
      (m.peek 0 = 0xff → m.peek 1 = 0xff → v = 65535)) ∧
    (T = CType.uint32_t →
      v = m.peek 0 + 2 ^ 8 * m.peek 1 + 2 ^ 16 * m.peek 2 + 2 ^ 24 * m.peek 3) ∧
    (T = CType.int32_t →
      (v = if m.peek 0 + 2 ^ 8 * m.peek 1 + 2 ^ 16 * m.peek 2 + 2 ^ 24 * m.peek 3 < 2 ^ 31
            then m.peek 0 + 2 ^ 8 * m.peek 1 + 2 ^ 16 * m.peek 2 + 2 ^ 24 * m.peek 3
            else m.peek 0 + 2 ^ 8 * m.peek 1 + 2 ^ 16 * m.peek 2 + 2 ^ 24 * m.peek 3
              - 2 ^ 32) ∧
      -2 ^ 31 ≤ v ∧ v ≤ 2 ^ 31 - 1 ∧
      (m.peek 0 = 0xff → m.peek 1 = 0xff → m.peek 2 = 0xff → m.peek 3 = 0xff →
        v = -1) ∧
      (m.peek 0 = 0x00 → m.peek 1 = 0x00 → m.peek 2 = 0x00 → m.peek 3 = 0x80 →
        v = -2 ^ 31)) := by
  obtain ⟨_, hv⟩ := Unpickler.read_ok_value T m v h
  have h0 := (m.mem (m.self.bytes_ + 0)).isLt
  have h1 := (m.mem (m.self.bytes_ + 1)).isLt
  have h2 := (m.mem (m.self.bytes_ + 2)).isLt
  have h3 := (m.mem (m.self.bytes_ + 3)).isLt
  refine ⟨?_, ?_, ?_, ?_, ?_⟩
  · intro hs
    subst hv
    cases T <;> simp [CType.isSigned] at hs <;>
      simp [CType.ofBytes, CType.isSigned, CType.sizeof, memcpy_one, memcpy_two,
        memcpy_four, memcpy_eight, leValue, Machine.peek, Finset.sum_range_succ] <;>
      ring
  · rintro rfl
    subst hv
    simp [CType.ofBytes, CType.isSigned, CType.sizeof, memcpy_one, leValue, Machine.peek]
  · rintro rfl
    have hv' : v = m.peek 0 + 256 * m.peek 1 := by
      subst hv
      simp [CType.ofBytes, CType.isSigned, CType.sizeof, memcpy_two, leValue, Machine.peek]
    simp only [Machine.peek] at hv' ⊢
    refine ⟨hv', ?_, ?_, ?_⟩ <;> omega
  · rintro rfl
    subst hv
    simp [CType.ofBytes, CType.isSigned, CType.sizeof, memcpy_four, leValue, Machine.peek]
    ring
  · rintro rfl
    have hv' : v =
        if (m.mem (m.self.bytes_ + 0)).val + 256 * ((m.mem (m.self.bytes_ + 1)).val
            + 256 * ((m.mem (m.self.bytes_ + 2)).val
            + 256 * ((m.mem (m.self.bytes_ + 3)).val + 256 * 0))) < 2 ^ 31
        then (((m.mem (m.self.bytes_ + 0)).val + 256 * ((m.mem (m.self.bytes_ + 1)).val
            + 256 * ((m.mem (m.self.bytes_ + 2)).val
            + 256 * ((m.mem (m.self.bytes_ + 3)).val + 256 * 0))) : Nat) : Int)
        else (((m.mem (m.self.bytes_ + 0)).val + 256 * ((m.mem (m.self.bytes_ + 1)).val
            + 256 * ((m.mem (m.self.bytes_ + 2)).val
            + 256 * ((m.mem (m.self.bytes_ + 3)).val + 256 * 0))) : Nat) : Int) - 2 ^ 32 := by
      subst hv
      simp only [CType.ofBytes, CType.isSigned, CType.sizeof, memcpy_four, leValue,
        Bool.true_and, decide_eq_true_eq]
      split_ifs <;> first | rfl | omega
    simp only [Machine.peek]
    refine ⟨?_, ?_, ?_, ?_, ?_⟩
    · split_ifs at hv' ⊢ <;> omega
    · split_ifs at hv' <;> omega
    · split_ifs at hv' <;> omega
    · intro e0 e1 e2 e3; split_ifs at hv' <;> omega
    · intro e0 e1 e2 e3; split_ifs at hv' <;> omega

/-- Witness of C3: the four bytes `ff ff ff ff` read as `int32_t`. -/
theorem Unpickler.read_value_little_endian_witness :
    (Unpickler.read CType.int32_t (machineOf 16 [0xff, 0xff, 0xff, 0xff])).1 = .ok (-1) ∧
    (-2 ^ 31 ≤ (-1 : Int) ∧ (-1 : Int) ≤ 2 ^ 31 - 1) :=
  ⟨rfl,
   ((Unpickler.read_value_little_endian CType.int32_t
      (machineOf 16 [0xff, 0xff, 0xff, 0xff]) (-1) (by rfl)).2.2.2.2 rfl).2.1,
   ((Unpickler.read_value_little_endian CType.int32_t
      (machineOf 16 [0xff, 0xff, 0xff, 0xff]) (-1) (by rfl)).2.2.2.2 rfl).2.2.1⟩

/-! ## The error of a truncated read -/

/-- C5. Every opcode of the vocabulary is a member of `OpCode`, and its
byte is the one the pickle format assigns to it. -/
theorem OpCode.toByte_vocabulary :
    OpCode.PROTO.toByte = 0x80 ∧ OpCode.STOP.toByte = 0x2E ∧
    OpCode.NONE.toByte = 0x4E ∧ OpCode.NONE.toChar = 'N' ∧
    OpCode.NEWTRUE.toByte = 0x88 ∧ OpCode.NEWFALSE.toByte = 0x89 ∧
    OpCode.BININT1.toByte = 0x4B ∧ OpCode.BININT1.toChar = 'K' ∧
    OpCode.BININT2.toByte = 0x4D ∧ OpCode.BININT2.toChar = 'M' ∧
    OpCode.BININT.toByte = 0x4A ∧ OpCode.BININT.toChar = 'J' ∧
    OpCode.LONG1.toByte = 0x8A ∧
    OpCode.BINFLOAT.toByte = 0x47 ∧ OpCode.BINFLOAT.toChar = 'G' ∧
    OpCode.MARK.toByte = 0x28 ∧
    OpCode.SHORT_BINUNICODE.toByte = 0x8C ∧ OpCode.BINUNICODE.toByte = 0x58 ∧
    OpCode.BINUNICODE8.toByte = 0x8D ∧
    OpCode.BINBYTES.toByte = 0x42 ∧ OpCode.BINBYTES8.toByte = 0x8E ∧
    OpCode.BINGET.toByte = 0x68 ∧ OpCode.LONG_BINGET.toByte = 0x6A ∧
    OpCode.BINPUT.toByte = 0x71 ∧ OpCode.LONG_BINPUT.toByte = 0x72 ∧
    OpCode.MEMOIZE.toByte = 0x94 ∧
    OpCode.EMPTY_DICT.toByte = 0x7D ∧ OpCode.EMPTY_LIST.toByte = 0x5D ∧
    OpCode.EMPTY_TUPLE.toByte = 0x29 ∧
    OpCode.TUPLE.toByte = 0x74 ∧ OpCode.TUPLE1.toByte = 0x85 ∧
    OpCode.TUPLE2.toByte = 0x86 ∧ OpCode.TUPLE3.toByte = 0x87 ∧
    OpCode.APPENDS.toByte = 0x65 ∧ OpCode.SETITEMS.toByte = 0x75 ∧
    OpCode.GLOBAL.toByte = 0x63 ∧ OpCode.NEWOBJ.toByte = 0x81 ∧
    OpCode.BUILD.toByte = 0x62 ∧ OpCode.REDUCE.toByte = 0x52 ∧
    OpCode.FRAME.toByte = 0x95 := by
  decide

/-- C7. The byte `0x7B` is not the byte of any member of `OpCode`, so
looking it up among the members finds none, and the dispatch on a byte
`0x7B` found where an instruction is expected yields `UnknownOpcode` with
the byte `0x7B` and its offset, whichever opcodes have a handler. -/
theorem OpCode.byte_0x7B_unknown :
    (∀ op : OpCode, op.toByte ≠ 0x7B) ∧
    OpCode.ofByte? 0x7B = none ∧
    (∀ (handled : OpCode → Bool) (offset : Nat),
      dispatch handled 0x7B offset = .error { byte := 0x7B, offset := offset }) := by
  refine ⟨?_, by decide, ?_⟩
  · intro op; cases op <;> decide
  · intro handled offset
    have h : OpCode.ofByte? 0x7B = none := by decide
    simp [dispatch, h]

/-! ## Class tags -/

/-- C8. `PicklerClass` has exactly the three members `TENSOR`, `INTLIST`
and `LITERAL_TENSOR`, with the pairwise distinct byte values 0, 1 and 2; a
byte denotes a class tag if and only if it is 0, 1 or 2; and mapping a tag
to its byte and back returns the same tag. -/
theorem PicklerClass.closed_three_tags :
    (∀ c : PicklerClass,
      c = PicklerClass.TENSOR ∨ c = PicklerClass.INTLIST ∨
        c = PicklerClass.LITERAL_TENSOR) ∧
    Fintype.card PicklerClass = 3 ∧
    PicklerClass.TENSOR.toByte = 0 ∧ PicklerClass.INTLIST.toByte = 1 ∧
    PicklerClass.LITERAL_TENSOR.toByte = 2 ∧
    Function.Injective PicklerClass.toByte ∧
    (∀ b : Byte, (∃ c : PicklerClass, c.toByte = b) ↔ (b = 0 ∨ b = 1 ∨ b = 2)) ∧
    (∀ b : Byte, (PicklerClass.ofByte? b).isSome ↔ (b = 0 ∨ b = 1 ∨ b = 2)) ∧
    (∀ (b : Byte) (c : PicklerClass), PicklerClass.ofByte? b = some c → c.toByte = b) ∧
    (∀ c : PicklerClass, PicklerClass.ofByte? c.toByte = some c) := by
  refine ⟨?_, rfl, rfl, rfl, rfl, ?_, ?_, ?_, ?_, ?_⟩
  · intro c; cases c <;> simp
  · intro a b h; cases a <;> cases b <;> first | rfl | (exact absurd h (by decide))
  · intro b
    constructor
    · rintro ⟨c, rfl⟩; cases c <;> simp [PicklerClass.toByte]
    · rintro (rfl | rfl | rfl)
      · exact ⟨PicklerClass.TENSOR, rfl⟩
      · exact ⟨PicklerClass.INTLIST, rfl⟩
      · exact ⟨PicklerClass.LITERAL_TENSOR, rfl⟩
  · intro b
    rw [PicklerClass.ofByte?, List.find?_isSome]
    constructor
    · rintro ⟨c, _, hc⟩
      have hc' : c.toByte = b := by simpa using hc
      subst hc'
      cases c <;> simp [PicklerClass.toByte]
    · rintro (rfl | rfl | rfl)
      · exact ⟨PicklerClass.TENSOR, by decide, by decide⟩
      · exact ⟨PicklerClass.INTLIST, by decide, by decide⟩
      · exact ⟨PicklerClass.LITERAL_TENSOR, by decide, by decide⟩
  · intro b c h
    have hc := List.find?_some h
    simpa using hc
  · intro c; cases c <;> rfl

/-! ## Frame and progress of `read` -/

/-- C9. `read<T>` treats its input as read-only: after the call the
memory holding the input, the end pointer, the value stack, the marks
stack, the memo array, the tensor table and the last-seen opcode are as
before; the state after the call is the state before it with at most the
cursor replaced. -/
theorem Unpickler.read_frame (T : CType) (m : Machine IValue Tensor) :
    (Unpickler.read T m).2.mem = m.mem ∧
    (Unpickler.read T m).2.self.end_ptr_ = m.self.end_ptr_ ∧
    (Unpickler.read T m).2.self.stack_ = m.self.stack_ ∧
    (Unpickler.read T m).2.self.marks_ = m.self.marks_ ∧
    (Unpickler.read T m).2.self.memo_ = m.self.memo_ ∧
    (Unpickler.read T m).2.self.tensor_table_ = m.self.tensor_table_ ∧
    (Unpickler.read T m).2.self.last_opcode_ = m.self.last_opcode_ ∧
    (Unpickler.read T m).2 =
      { m with self := { m.self with bytes_ := (Unpickler.read T m).2.self.bytes_ } } := by
  rcases Unpickler.read_cases T m with ⟨_, heq⟩ | ⟨_, heq⟩ <;> rw [heq] <;>
    exact ⟨rfl, rfl, rfl, rfl, rfl, rfl, rfl, rfl⟩

/-- Witness of C8: the byte 2 is looked up as `LITERAL_TENSOR`, whose byte
is 2 again. -/
theorem PicklerClass.closed_three_tags_witness :
    PicklerClass.ofByte? 2 = some PicklerClass.LITERAL_TENSOR ∧
    PicklerClass.LITERAL_TENSOR.toByte = 2 :=
  ⟨by decide,
   PicklerClass.closed_three_tags.2.2.2.2.2.2.2.2.1 2 PicklerClass.LITERAL_TENSOR (by decide)⟩

/-! ## The initial state -/

/-- C11, as stated, fails.  For the input at address `0x100000` with
`size = 2 ^ 64 - 1` the end pointer of the fresh decoder is `0xFFFFF`, one
byte below the input, not at offset `size` of it. -/
theorem Unpickler.fresh_end_not_at_size :
    (0x100000 : Nat) < addressSpace ∧ (2 ^ 64 - 1 : Nat) < addressSpace ∧
    (Unpickler.construct 0x100000 (2 ^ 64 - 1) none 0 : Unpickler Unit Unit).end_ptr_
      ≠ 0x100000 + (2 ^ 64 - 1) ∧
    ((Unpickler.construct 0x100000 (2 ^ 64 - 1) none 0 : Unpickler Unit Unit).end_ptr_ : Int)
      - (0x100000 : Nat) = -1 := by
  refine ⟨by decide, by decide, ?_, ?_⟩
  · show (0x100000 + (2 ^ 64 - 1)) % addressSpace ≠ 0x100000 + (2 ^ 64 - 1)
    decide
  · show (((0x100000 + (2 ^ 64 - 1)) % addressSpace : Nat) : Int) - (0x100000 : Nat) = -1
    decide

/-- C11, amended.  For every input `(data, size, tensor_table)` a freshly
constructed `Unpickler` has an empty value stack, an empty marks stack and
an empty memo array, its cursor at byte offset 0 of the input, and the
tensor table it was given; its end pointer is `data + size` taken modulo
`2 ^ 64`, which is offset `size` of the input whenever the input lies in
the address space (`data + size < 2 ^ 64`). -/
theorem Unpickler.construct_initial (data size : Nat) (tt : Option (List Tensor))
    (lo : Byte) :
    (Unpickler.construct data size tt lo : Unpickler IValue Tensor).stack_ = [] ∧
    (Unpickler.construct data size tt lo : Unpickler IValue Tensor).marks_ = [] ∧
    (Unpickler.construct data size tt lo : Unpickler IValue Tensor).memo_ = [] ∧
    (Unpickler.construct data size tt lo : Unpickler IValue Tensor).bytes_ = data + 0 ∧
    ((Unpickler.construct data size tt lo : Unpickler IValue Tensor).bytes_ : Int) - data = 0 ∧
    (Unpickler.construct data size tt lo : Unpickler IValue Tensor).tensor_table_ = tt ∧
    (Unpickler.construct data size tt lo : Unpickler IValue Tensor).end_ptr_ =
      (data + size) % 2 ^ 64 ∧
    (data + size < 2 ^ 64 →
      (Unpickler.construct data size tt lo : Unpickler IValue Tensor).end_ptr_ = data + size ∧
      ((Unpickler.construct data size tt lo : Unpickler IValue Tensor).end_ptr_ : Int) - data
        = size) := by
  refine ⟨rfl, rfl, rfl, rfl, ?_, rfl, rfl, ?_⟩
  · simp [Unpickler.construct]
  · intro h
    have he := @Unpickler.construct_end_ptr IValue Tensor data size tt lo h
    rw [he]
    exact ⟨rfl, by push_cast; ring⟩

/-- Witness of C11, amended: the decoder constructed over three bytes at
address 16 has its end pointer at address 19, offset 3. -/
theorem Unpickler.construct_initial_witness :
    16 + 3 < 2 ^ 64 ∧
    (Unpickler.construct 16 3 none 0 : Unpickler Unit Unit).end_ptr_ = 16 + 3 :=
  ⟨by decide,
   ((@Unpickler.construct_initial Unit Unit 16 3 none 0).2.2.2.2.2.2.2 (by decide)).1⟩

/-! ## Atomicity of a failing read -/

/-- C14. No two members of `OpCode` have the same byte: the map from an
opcode to its byte is injective, so a byte denotes at most one opcode;
decoding a byte to an opcode and encoding the opcode again returns the
same byte, and encoding an opcode and decoding its byte returns the same
opcode. -/
theorem OpCode.toByte_injective :
    Function.Injective OpCode.toByte ∧
    (∀ a b : OpCode, a ≠ b → a.toByte ≠ b.toByte) ∧
    (∀ (b : Byte) (op op' : OpCode), op.toByte = b → op'.toByte = b → op = op') ∧
    (∀ (b : Byte) (op : OpCode), OpCode.ofByte? b = some op → op.toByte = b) ∧
    (∀ op : OpCode, OpCode.ofByte? op.toByte = some op) := by
  have inj : Function.Injective OpCode.toByte := by
    intro a b h
    have ha := OpCode.ofByte?_toByte a
    rw [h, OpCode.ofByte?_toByte b] at ha
    exact (Option.some.inj ha).symm
  refine ⟨inj, ?_, ?_, OpCode.toByte_of_ofByte?, OpCode.ofByte?_toByte⟩
  · intro a b hne h
    exact hne (inj h)
  · intro b op op' h h'
    exact inj (h.trans h'.symm)

/-- Witness of C14: the byte `0x95` decodes to `FRAME`, whose byte is
`0x95`; `FRAME` and `MEMOIZE` differ and so do their bytes. -/
theorem OpCode.toByte_injective_witness :
    OpCode.ofByte? 0x95 = some OpCode.FRAME ∧ OpCode.FRAME.toByte = 0x95 ∧
    OpCode.FRAME ≠ OpCode.MEMOIZE ∧ OpCode.FRAME.toByte ≠ OpCode.MEMOIZE.toByte :=
  ⟨by decide,
   OpCode.toByte_injective.2.2.2.1 0x95 OpCode.FRAME (by decide),
   by decide,
   OpCode.toByte_injective.2.1 OpCode.FRAME OpCode.MEMOIZE (by decide)⟩

end Claims

end torch.jit
